import Mathlib

set_option maxRecDepth 10000

/-!
A shallow embedding of the `ecosystem` genetic-algorithms library
(`src/lib.rs`) and a verification of its specification.

Modelling choices:

* `f64` fitness values and mutation rates are embedded as rationals (`ℚ`);
  the spec treats them as real numbers with a strict total order.
* The `Organism` trait becomes a bundle of the three operations over a
  carrier type `α`; `mutate(&mut self, rate)` becomes `α → ℚ → α`.
* The `u32` generation counter is a natural number; the increment performed
  by `breed_next_generation` is taken modulo `2 ^ 32`, the release-mode
  (wrapping) semantics of `self.generation += 1` on a `u32`.
* Randomness is made explicit: every iteration of the rejection loop in
  `select_suitable_organism` consumes a pair `(i, u)` where `i` is the index
  produced by `SliceRandom::choose` and `u ∈ [0, 1)` is the raw uniform
  sample that rand's `gen_range(0.0, best)` scales to `u * best`.
* A Rust panic (indexing an empty vector, `unwrap_or_else(|| panic!(..))`)
  is embedded as `none`; an exhausted draw list also yields `none`, meaning
  the rejection loop is still running after consuming those draws.
-/

/-- The `Organism` trait of the library: fitness evaluation, breeding and
in-place mutation. -/
structure Organism (α : Type) where
  fitness : α → ℚ
  breed : α → α → α
  mutate : α → ℚ → α

/-- `Ecosystem<O>`: the organism vector together with the `u32` generation
counter (kept as a natural number; counter updates are taken mod `2 ^ 32`). -/
structure Ecosystem (α : Type) where
  organisms : List α
  generation : ℕ
  deriving DecidableEq

/-- `2 ^ 32`, the modulus of the `u32` generation counter. -/
def u32Mod : ℕ := 2 ^ 32

/-- `Ecosystem::new`: stores the given organisms and sets the generation
counter to `0`.  It performs no validation at all. -/
def Ecosystem.new {α : Type} (organisms : List α) : Ecosystem α :=
  ⟨organisms, 0⟩

/-- One step of the fold inside `Ecosystem::fittest`: the running best is
replaced only when the new organism's fitness is strictly greater. -/
def fitStep {α : Type} (ops : Organism α) (best organism : α) : α :=
  if ops.fitness organism > ops.fitness best then organism else best

/-- `Ecosystem::fittest`: a fold over the whole organism vector starting from
`organisms[0]`.  Indexing an empty vector panics in Rust; that is `none`. -/
def Ecosystem.fittest {α : Type} (ops : Organism α) (e : Ecosystem α) : Option α :=
  match e.organisms with
  | [] => none
  | o :: rest => some ((o :: rest).foldl (fitStep ops) o)

/-- The number produced by rand's uniform float `gen_range(lo, hi)` when the
underlying generator yields the sample `u ∈ [0, 1)`: `lo + u * (hi - lo)`.
(rand computes `value1_2 * scale + (low - scale)` with `value1_2 = u + 1`,
which is the same number; no range check guards `hi ≤ lo`, so in that
degenerate case the result simply lands in `(hi, lo]`.) -/
def genRange (lo hi u : ℚ) : ℚ := lo + u * (hi - lo)

/-- `Ecosystem::select_suitable_organism`, the rejection-sampling loop, with
the random draws explicit.  Each iteration consumes one pair `(i, u)`:
`choose` picks index `i`, the organism is accepted iff its fitness strictly
exceeds `gen_range(0.0, self.fittest().fitness())` — note that the fittest
organism is recomputed inside every iteration, exactly as in the source. -/
def Ecosystem.select_suitable_organism {α : Type} (ops : Organism α) (e : Ecosystem α) :
    List (ℕ × ℚ) → Option α
  | [] => none
  | (i, u) :: rest =>
    match e.organisms.get? i with
    | none => none
    | some organism =>
      match Ecosystem.fittest ops e with
      | none => none
      | some best =>
        if ops.fitness organism > genRange 0 (ops.fitness best) u then some organism
        else Ecosystem.select_suitable_organism ops e rest

/-- One slot of the parallel map inside `breed_next_generation`: select a
mother and a father, breed them, mutate the child. -/
def breedChild {α : Type} (ops : Organism α) (e : Ecosystem α) (rate : ℚ)
    (motherDraws fatherDraws : List (ℕ × ℚ)) : Option α :=
  match Ecosystem.select_suitable_organism ops e motherDraws with
  | none => none
  | some mother =>
    match Ecosystem.select_suitable_organism ops e fatherDraws with
    | none => none
    | some father => some (ops.mutate (ops.breed mother father) rate)

/-- rayon's ordered `collect` of the per-slot results: all-or-nothing — a
panic in any worker propagates and no partial vector is produced. -/
def collectResults {α : Type} : List (Option α) → Option (List α)
  | [] => some []
  | none :: _ => none
  | some a :: rest =>
    match collectResults rest with
    | none => none
    | some l => some (a :: l)

/-- `Ecosystem::breed_next_generation`: one child per current slot (the map
runs over `0..self.organisms.len()` and reads the frozen pre-generation
ecosystem `e`), then the two assignments `self.organisms = next_generation;
self.generation += 1` — the increment modulo `2 ^ 32` since the counter is a
`u32`.  `rnd k` supplies the mother/father draw streams for slot `k`. -/
def Ecosystem.breed_next_generation {α : Type} (ops : Organism α) (e : Ecosystem α)
    (rate : ℚ) (rnd : ℕ → List (ℕ × ℚ) × List (ℕ × ℚ)) : Option (Ecosystem α) :=
  match collectResults ((List.range e.organisms.length).map
      (fun k => breedChild ops e rate (rnd k).1 (rnd k).2)) with
  | none => none
  | some next => some ⟨next, (e.generation + 1) % u32Mod⟩

/-- The selection loop as §4.2 of the spec words it: the threshold upper
bound `best` is computed once, before the loop, and every iteration tests
against that cached value. -/
def selectLoopFixedBest {α : Type} (ops : Organism α) (e : Ecosystem α) (best : ℚ) :
    List (ℕ × ℚ) → Option α
  | [] => none
  | (i, u) :: rest =>
    match e.organisms.get? i with
    | none => none
    | some organism =>
      if ops.fitness organism > genRange 0 best u then some organism
      else selectLoopFixedBest ops e best rest

/-- Spec §4.2 selection: `let best = Fittest().fitness()` once, then the
rejection loop against that fixed `best`. -/
def selectSpecBestOnce {α : Type} (ops : Organism α) (e : Ecosystem α)
    (draws : List (ℕ × ℚ)) : Option α :=
  match Ecosystem.fittest ops e with
  | none => none
  | some best => selectLoopFixedBest ops e (ops.fitness best) draws

/-- The `Organism` trait with fallible operations: `none` models a panic
raised by user organism code (`fitness`, `breed` or `mutate`). -/
structure FallibleOrganism (α : Type) where
  fitness : α → Option ℚ
  breed : α → α → Option α
  mutate : α → ℚ → Option α

/-- One step of the `fittest` fold when fitness evaluation may panic; the
candidate's fitness is evaluated before the running best's, following the
left-to-right evaluation of `organism.fitness() > fittest.fitness()`. -/
def fitStepF {α : Type} (ops : FallibleOrganism α) (best organism : α) : Option α :=
  match ops.fitness organism with
  | none => none
  | some fo =>
    match ops.fitness best with
    | none => none
    | some fb => some (if fo > fb then organism else best)

/-- `Ecosystem::fittest` when fitness evaluation may panic. -/
def fittestF {α : Type} (ops : FallibleOrganism α) (e : Ecosystem α) : Option α :=
  match e.organisms with
  | [] => none
  | o :: rest => (o :: rest).foldlM (fitStepF ops) o

/-- `Ecosystem::select_suitable_organism` when fitness evaluation may panic:
per iteration, the candidate's fitness is evaluated first, then the fittest
organism and its fitness (the arguments of `gen_range`). -/
def select_suitable_organismF {α : Type} (ops : FallibleOrganism α) (e : Ecosystem α) :
    List (ℕ × ℚ) → Option α
  | [] => none
  | (i, u) :: rest =>
    match e.organisms.get? i with
    | none => none
    | some organism =>
      match ops.fitness organism with
      | none => none
      | some fo =>
        match fittestF ops e with
        | none => none
        | some best =>
          match ops.fitness best with
          | none => none
          | some fb =>
            if fo > genRange 0 fb u then some organism
            else select_suitable_organismF ops e rest

/-- One generation slot when organism operations may panic: any failure in
selection, `breed` or `mutate` yields no child. -/
def breedChildF {α : Type} (ops : FallibleOrganism α) (e : Ecosystem α) (rate : ℚ)
    (motherDraws fatherDraws : List (ℕ × ℚ)) : Option α :=
  match select_suitable_organismF ops e motherDraws with
  | none => none
  | some mother =>
    match select_suitable_organismF ops e fatherDraws with
    | none => none
    | some father =>
      match ops.breed mother father with
      | none => none
      | some child => ops.mutate child rate

/-- `Ecosystem::breed_next_generation` when organism operations may panic:
the two field assignments happen only after every slot produced a child. -/
def breed_next_generationF {α : Type} (ops : FallibleOrganism α) (e : Ecosystem α)
    (rate : ℚ) (rnd : ℕ → List (ℕ × ℚ) × List (ℕ × ℚ)) : Option (Ecosystem α) :=
  match collectResults ((List.range e.organisms.length).map
      (fun k => breedChildF ops e rate (rnd k).1 (rnd k).2)) with
  | none => none
  | some next => some ⟨next, (e.generation + 1) % u32Mod⟩

/-- A concrete organism over `ℚ` in the style of the `pi_approx` example:
fitness is the value itself, breeding averages, mutation adds the rate. -/
def ratOps : Organism ℚ :=
  ⟨id, fun a b => (a + b) / 2, fun a r => a + r⟩

/-- A draw supply whose every selection immediately accepts index `0` with
raw sample `0`. -/
def rndC : ℕ → List (ℕ × ℚ) × List (ℕ × ℚ) :=
  fun _ => ([(0, 0)], [(0, 0)])

/-- The ecosystem reached from `Ecosystem::new(vec![1])` after `k` completed
`breed_next_generation` calls fed by `rndC` (if a call could fail the prior
state would be kept, but every call here completes). -/
def iterAdvance : ℕ → Ecosystem ℚ
  | 0 => Ecosystem.new [1]
  | k + 1 =>
    (Ecosystem.breed_next_generation ratOps (iterAdvance k) 0 rndC).getD (iterAdvance k)

/-- The ecosystem reached from `Ecosystem::new(vec![])` after `k` completed
`breed_next_generation` calls. -/
def iterAdvanceEmpty : ℕ → Ecosystem ℚ
  | 0 => Ecosystem.new []
  | k + 1 =>
    (Ecosystem.breed_next_generation ratOps (iterAdvanceEmpty k) 0 rndC).getD
      (iterAdvanceEmpty k)

/-- A fallible organism over `ℚ` whose `breed` always panics while `fitness`
and `mutate` succeed. -/
def failOps : FallibleOrganism ℚ :=
  ⟨fun a => some a, fun _ _ => none, fun a r => some (a + r)⟩

lemma fitStep_self {α : Type} (ops : Organism α) (o : α) : fitStep ops o o = o := by
  simp [fitStep]

lemma fitness_le_fitStep_left {α : Type} (ops : Organism α) (a x : α) :
    ops.fitness a ≤ ops.fitness (fitStep ops a x) := by
  by_cases h : ops.fitness a < ops.fitness x
  · rw [fitStep, if_pos h]
    exact le_of_lt h
  · rw [fitStep, if_neg h]

lemma fitness_le_fitStep_right {α : Type} (ops : Organism α) (a x : α) :
    ops.fitness x ≤ ops.fitness (fitStep ops a x) := by
  by_cases h : ops.fitness a < ops.fitness x
  · rw [fitStep, if_pos h]
  · rw [fitStep, if_neg h]
    exact le_of_not_lt h

lemma foldl_fitStep_init_le {α : Type} (ops : Organism α) (l : List α) :
    ∀ a : α, ops.fitness a ≤ ops.fitness (l.foldl (fitStep ops) a) := by
  induction l with
  | nil => intro a; exact le_refl _
  | cons x xs ih =>
    intro a
    simp only [List.foldl_cons]
    exact le_trans (fitness_le_fitStep_left ops a x) (ih (fitStep ops a x))

lemma foldl_fitStep_mem_le {α : Type} (ops : Organism α) (l : List α) :
    ∀ a : α, ∀ x ∈ l, ops.fitness x ≤ ops.fitness (l.foldl (fitStep ops) a) := by
  induction l with
  | nil => intro a x hx; exact absurd hx (List.not_mem_nil x)
  | cons y ys ih =>
    intro a x hx
    simp only [List.foldl_cons]
    rcases List.mem_cons.1 hx with rfl | hx'
    · exact le_trans (fitness_le_fitStep_right ops a x) (foldl_fitStep_init_le ops ys _)
    · exact ih (fitStep ops a y) x hx'

lemma foldl_fitStep_first_occurrence {α : Type} (ops : Organism α) (l : List α) :
    ∀ a r : α, l.foldl (fitStep ops) a = r →
      r = a ∨
      ∃ l₁ l₂, l = l₁ ++ r :: l₂ ∧
        (∀ x ∈ l₁, ops.fitness x < ops.fitness r) ∧
        ops.fitness a < ops.fitness r := by
  induction l with
  | nil => intro a r hr; left; exact hr.symm
  | cons x xs ih =>
    intro a r hr
    rw [List.foldl_cons] at hr
    by_cases h : ops.fitness a < ops.fitness x
    · rw [fitStep, if_pos h] at hr
      rcases ih x r hr with heq | ⟨l₁, l₂, hsplit, hlt, hax⟩
      · right
        refine ⟨[], xs, ?_, ?_, ?_⟩
        · rw [heq]; rfl
        · intro y hy; exact absurd hy (List.not_mem_nil y)
        · rw [heq]; exact h
      · right
        refine ⟨x :: l₁, l₂, by rw [hsplit]; rfl, ?_, lt_trans h hax⟩
        intro y hy
        rcases List.mem_cons.1 hy with rfl | hy'
        · exact hax
        · exact hlt y hy'
    · rw [fitStep, if_neg h] at hr
      rcases ih a r hr with heq | ⟨l₁, l₂, hsplit, hlt, hax⟩
      · left; exact heq
      · right
        refine ⟨x :: l₁, l₂, by rw [hsplit]; rfl, ?_, hax⟩
        intro y hy
        rcases List.mem_cons.1 hy with rfl | hy'
        · exact lt_of_le_of_lt (le_of_not_lt h) hax
        · exact hlt y hy'

lemma fittest_cons {α : Type} (ops : Organism α) (o : α) (rest : List α) (g : ℕ) :
    Ecosystem.fittest ops ⟨o :: rest, g⟩ = some (rest.foldl (fitStep ops) o) := by
  simp [Ecosystem.fittest, fitStep_self]

lemma fittest_max {α : Type} (ops : Organism α) (e : Ecosystem α) (f : α)
    (hf : Ecosystem.fittest ops e = some f) :
    ∀ x ∈ e.organisms, ops.fitness x ≤ ops.fitness f := by
  obtain ⟨orgs, g⟩ := e
  cases orgs with
  | nil => simp [Ecosystem.fittest] at hf
  | cons o rest =>
    rw [fittest_cons] at hf
    obtain rfl : rest.foldl (fitStep ops) o = f := Option.some.inj hf
    intro x hx
    rcases List.mem_cons.1 hx with rfl | hx'
    · exact foldl_fitStep_init_le ops rest x
    · exact foldl_fitStep_mem_le ops rest o x hx'

/-- Claim C1: for every non-empty population, `fittest` returns an organism
whose fitness is greater than or equal to the fitness of every organism in
the population, and among organisms tied at that maximal fitness it returns
the first one in sequence order: the organism sequence splits as
`l₁ ++ f :: l₂` where everything in the prefix `l₁` has strictly smaller
fitness than `f`. -/
theorem fittest_returns_first_maximum {α : Type} (ops : Organism α) (e : Ecosystem α)
    (hne : e.organisms ≠ []) :
    ∃ f l₁ l₂, Ecosystem.fittest ops e = some f ∧ e.organisms = l₁ ++ f :: l₂ ∧
      (∀ x ∈ e.organisms, ops.fitness x ≤ ops.fitness f) ∧
      (∀ x ∈ l₁, ops.fitness x < ops.fitness f) := by
  obtain ⟨orgs, g⟩ := e
  cases orgs with
  | nil => exact absurd rfl hne
  | cons o rest =>
    obtain ⟨r, hr⟩ : ∃ r, rest.foldl (fitStep ops) o = r := ⟨_, rfl⟩
    have hfit : Ecosystem.fittest ops ⟨o :: rest, g⟩ = some r := by
      rw [fittest_cons, hr]
    have hmax := fittest_max ops ⟨o :: rest, g⟩ r hfit
    refine ⟨r, ?_⟩
    rcases foldl_fitStep_first_occurrence ops rest o r hr with heq | ⟨l₁, l₂, hsplit, hlt, hax⟩
    · subst heq
      refine ⟨[], rest, hfit, rfl, hmax, ?_⟩
      intro y hy; exact absurd hy (List.not_mem_nil y)
    · refine ⟨o :: l₁, l₂, hfit, by rw [hsplit]; rfl, hmax, ?_⟩
      intro y hy
      rcases List.mem_cons.1 hy with rfl | hy'
      · exact hax
      · exact hlt y hy'

/-- Witness for C1 on a concrete population with a fitness tie: the first of
the two organisms of maximal fitness `3` is returned. -/
theorem fittest_returns_first_maximum_witness :
    ∃ f l₁ l₂, Ecosystem.fittest ratOps ⟨[1, 3, 3, 2], 0⟩ = some f ∧
      [(1 : ℚ), 3, 3, 2] = l₁ ++ f :: l₂ ∧
      (∀ x ∈ [(1 : ℚ), 3, 3, 2], ratOps.fitness x ≤ ratOps.fitness f) ∧
      (∀ x ∈ l₁, ratOps.fitness x < ratOps.fitness f) :=
  fittest_returns_first_maximum ratOps ⟨[1, 3, 3, 2], 0⟩ (by simp)

lemma genRange_zero (b u : ℚ) : genRange 0 b u = u * b := by
  simp [genRange]

lemma reject_of_nonpos_best {α : Type} (ops : Organism α) (o : α) (bf u : ℚ)
    (hb : bf ≤ 0) (hu1 : u < 1) (ho : ops.fitness o ≤ bf) :
    ¬ (ops.fitness o > genRange 0 bf u) := by
  rw [genRange_zero]
  have key : bf ≤ u * bf := by
    nlinarith [mul_nonneg (by linarith : (0 : ℚ) ≤ 1 - u) (by linarith : (0 : ℚ) ≤ -bf)]
  exact not_lt.2 (le_trans ho key)

/-- Claim C4: whenever the fittest organism's fitness is not positive, the
rejection loop of `select_suitable_organism` accepts no draw at all — for
every finite stream of valid draws (indices in range, raw samples in
`[0, 1)`) the loop is still running, so no organism is ever returned and no
error is raised. -/
theorem selection_diverges_on_nonpositive_best {α : Type} (ops : Organism α)
    (e : Ecosystem α) (f : α)
    (hf : Ecosystem.fittest ops e = some f) (hbest : ops.fitness f ≤ 0)
    (draws : List (ℕ × ℚ))
    (hvalid : ∀ p ∈ draws, p.1 < e.organisms.length ∧ 0 ≤ p.2 ∧ p.2 < 1) :
    Ecosystem.select_suitable_organism ops e draws = none := by
  induction draws with
  | nil => rfl
  | cons p rest ih =>
    obtain ⟨i, u⟩ := p
    obtain ⟨hi, _, hu1⟩ := hvalid (i, u) (List.mem_cons_self _ _)
    have hget : e.organisms.get? i = some (e.organisms.get ⟨i, hi⟩) :=
      List.get?_eq_get hi
    have hle : ops.fitness (e.organisms.get ⟨i, hi⟩) ≤ ops.fitness f :=
      fittest_max ops e f hf _ (List.get_mem _ _ _)
    have hrej := reject_of_nonpos_best ops (e.organisms.get ⟨i, hi⟩)
      (ops.fitness f) u hbest hu1 hle
    have ihtail := ih (fun p hp => hvalid p (List.mem_cons_of_mem _ hp))
    simp only [Ecosystem.select_suitable_organism, hget, hf, if_neg hrej]
    exact ihtail

/-- Witness for C4: on the population `[-1, -2]` the fittest fitness is
`-1 ≤ 0`, and the two shown valid draws are both rejected. -/
theorem selection_diverges_on_nonpositive_best_witness :
    Ecosystem.fittest ratOps ⟨[-1, -2], 7⟩ = some (-1) ∧
    ratOps.fitness (-1) ≤ 0 ∧
    Ecosystem.select_suitable_organism ratOps ⟨[-1, -2], 7⟩ [(0, 0), (1, 1/2)] = none := by
  refine ⟨?_, ?_, ?_⟩
  · norm_num [Ecosystem.fittest, fitStep, ratOps]
  · norm_num [ratOps]
  · refine selection_diverges_on_nonpositive_best ratOps ⟨[-1, -2], 7⟩ (-1) ?_ ?_ _ ?_
    · norm_num [Ecosystem.fittest, fitStep, ratOps]
    · norm_num [ratOps]
    · intro p hp
      rcases List.mem_cons.1 hp with rfl | hp'
      · norm_num
      · rcases List.mem_cons.1 hp' with rfl | hp''
        · norm_num
        · exact absurd hp'' (List.not_mem_nil p)

/-- Claim C2: whenever the rejection-sampling selection returns an organism,
that organism is a member of the population picked at one of the drawn
indices, the threshold drawn for it lies in the half-open range
`[0, best)` (with `best` the fittest organism's fitness, necessarily
positive at any accepting draw), and the organism's fitness strictly exceeds
that threshold — selection never returns an organism whose fitness is less
than or equal to the threshold drawn for it. -/
theorem selection_beats_its_threshold {α : Type} (ops : Organism α) (e : Ecosystem α)
    (f o : α) (draws : List (ℕ × ℚ))
    (hf : Ecosystem.fittest ops e = some f)
    (hvalid : ∀ p ∈ draws, p.1 < e.organisms.length ∧ 0 ≤ p.2 ∧ p.2 < 1)
    (hsel : Ecosystem.select_suitable_organism ops e draws = some o) :
    o ∈ e.organisms ∧ 0 < ops.fitness f ∧
      ∃ i u, (i, u) ∈ draws ∧ e.organisms.get? i = some o ∧
        0 ≤ genRange 0 (ops.fitness f) u ∧
        genRange 0 (ops.fitness f) u < ops.fitness f ∧
        genRange 0 (ops.fitness f) u < ops.fitness o := by
  induction draws with
  | nil => simp [Ecosystem.select_suitable_organism] at hsel
  | cons p rest ih =>
    obtain ⟨i, u⟩ := p
    obtain ⟨hi, hu0, hu1⟩ := hvalid (i, u) (List.mem_cons_self _ _)
    have hget : e.organisms.get? i = some (e.organisms.get ⟨i, hi⟩) :=
      List.get?_eq_get hi
    simp only [Ecosystem.select_suitable_organism, hget, hf] at hsel
    by_cases hacc : ops.fitness (e.organisms.get ⟨i, hi⟩) > genRange 0 (ops.fitness f) u
    · rw [if_pos hacc] at hsel
      have heq : e.organisms.get ⟨i, hi⟩ = o := Option.some.inj hsel
      have hmem : o ∈ e.organisms := heq ▸ List.get_mem _ _ _
      have hle : ops.fitness o ≤ ops.fitness f := fittest_max ops e f hf o hmem
      have hacc' : genRange 0 (ops.fitness f) u < ops.fitness o := heq ▸ hacc
      have hbestpos : 0 < ops.fitness f := by
        by_contra hnp
        exact reject_of_nonpos_best ops o (ops.fitness f) u (le_of_not_lt hnp) hu1 hle hacc'
      refine ⟨hmem, hbestpos, i, u, List.mem_cons_self _ _, by rw [hget, heq], ?_, ?_, hacc'⟩
      · rw [genRange_zero]
        exact mul_nonneg hu0 (le_of_lt hbestpos)
      · rw [genRange_zero]
        exact mul_lt_of_lt_one_left hbestpos hu1
    · rw [if_neg hacc] at hsel
      obtain ⟨hmem, hbp, i', u', hd, hget', h0, h1, h2⟩ :=
        ih (fun p hp => hvalid p (List.mem_cons_of_mem _ hp)) hsel
      exact ⟨hmem, hbp, i', u', List.mem_cons_of_mem _ hd, hget', h0, h1, h2⟩

/-- Witness for C2: on the population `[1, 3]` the draw `(1, 1/2)` picks the
organism of fitness `3`, whose threshold `1/2 * 3` it strictly exceeds. -/
theorem selection_beats_its_threshold_witness :
    Ecosystem.select_suitable_organism ratOps ⟨[1, 3], 0⟩ [(1, 1/2)] = some 3 ∧
    ((3 : ℚ) ∈ [(1 : ℚ), 3] ∧ 0 < ratOps.fitness 3 ∧
      ∃ i u, (i, u) ∈ [((1 : ℕ), (1 : ℚ)/2)] ∧ [(1 : ℚ), 3].get? i = some 3 ∧
        0 ≤ genRange 0 (ratOps.fitness 3) u ∧
        genRange 0 (ratOps.fitness 3) u < ratOps.fitness 3 ∧
        genRange 0 (ratOps.fitness 3) u < ratOps.fitness 3) := by
  have hsel : Ecosystem.select_suitable_organism ratOps ⟨[1, 3], 0⟩ [(1, 1/2)] = some 3 := by
    norm_num [Ecosystem.select_suitable_organism, Ecosystem.fittest, fitStep, genRange, ratOps]
  refine ⟨hsel, ?_⟩
  refine selection_beats_its_threshold ratOps ⟨[1, 3], 0⟩ 3 3 [(1, 1/2)] ?_ ?_ hsel
  · norm_num [Ecosystem.fittest, fitStep, ratOps]
  · intro p hp
    rcases List.mem_cons.1 hp with rfl | hp'
    · norm_num
    · exact absurd hp' (List.not_mem_nil p)

/-- Claim C9: because the whole generation advance reads the frozen
pre-generation ecosystem `e` and fitness is a pure function, the source's
re-computation of the fittest organism inside every rejection-loop iteration
is equivalent to the spec's algorithm that computes `best` once per
selection: both functions agree on every draw stream. -/
theorem select_recompute_equals_fixed_best {α : Type} (ops : Organism α)
    (e : Ecosystem α) (draws : List (ℕ × ℚ)) :
    Ecosystem.select_suitable_organism ops e draws = selectSpecBestOnce ops e draws := by
  induction draws with
  | nil =>
    simp only [Ecosystem.select_suitable_organism, selectSpecBestOnce]
    cases hf : Ecosystem.fittest ops e <;> simp [selectLoopFixedBest]
  | cons p rest ih =>
    obtain ⟨i, u⟩ := p
    simp only [Ecosystem.select_suitable_organism, selectSpecBestOnce, selectLoopFixedBest]
    cases hf : Ecosystem.fittest ops e with
    | none => cases hget : e.organisms.get? i <;> simp
    | some f =>
      cases hget : e.organisms.get? i with
      | none => simp
      | some organism =>
        simp only
        by_cases hacc : ops.fitness organism > genRange 0 (ops.fitness f) u
        · rw [if_pos hacc, if_pos hacc]
        · rw [if_neg hacc, if_neg hacc, ih, selectSpecBestOnce, hf]

lemma collectResults_length {α : Type} :
    ∀ (xs : List (Option α)) (l : List α), collectResults xs = some l → l.length = xs.length := by
  intro xs
  induction xs with
  | nil =>
    intro l h
    obtain rfl : [] = l := Option.some.inj h
    rfl
  | cons x tl ih =>
    intro l h
    cases x with
    | none => exact absurd h (by simp [collectResults])
    | some a =>
      rw [collectResults] at h
      cases htl : collectResults tl with
      | none => rw [htl] at h; exact absurd h (by simp)
      | some l' =>
        rw [htl] at h
        obtain rfl : a :: l' = l := Option.some.inj h
        simp [ih l' htl]

lemma collectResults_none_of_mem {α : Type} :
    ∀ xs : List (Option α), none ∈ xs → collectResults xs = none := by
  intro xs
  induction xs with
  | nil => intro h; exact absurd h (List.not_mem_nil _)
  | cons x tl ih =>
    intro h
    cases x with
    | none => rfl
    | some a =>
      have htl : none ∈ tl := by
        rcases List.mem_cons.1 h with heq | h'
        · exact absurd heq (by simp)
        · exact h'
      rw [collectResults, ih htl]

/-- Claim C5: whenever `breed_next_generation` completes, the new population
has exactly as many organisms as the old one — the organism sequence is
replaced, never grown or shrunk. -/
theorem advance_preserves_population_size {α : Type} (ops : Organism α)
    (e e2 : Ecosystem α) (rate : ℚ) (rnd : ℕ → List (ℕ × ℚ) × List (ℕ × ℚ))
    (h : Ecosystem.breed_next_generation ops e rate rnd = some e2) :
    e2.organisms.length = e.organisms.length := by
  rw [Ecosystem.breed_next_generation] at h
  cases hc : collectResults ((List.range e.organisms.length).map
      (fun k => breedChild ops e rate (rnd k).1 (rnd k).2)) with
  | none => rw [hc] at h; exact absurd h (by simp)
  | some next =>
    rw [hc] at h
    obtain rfl : (⟨next, (e.generation + 1) % u32Mod⟩ : Ecosystem α) = e2 :=
      Option.some.inj h
    have := collectResults_length _ next hc
    simpa using this

/-- Witness for C5: a one-organism population advances to a one-organism
population. -/
theorem advance_preserves_population_size_witness :
    Ecosystem.breed_next_generation ratOps ⟨[2], 5⟩ 0 rndC = some ⟨[2], 6⟩ ∧
    (⟨[2], 6⟩ : Ecosystem ℚ).organisms.length = (⟨[2], 5⟩ : Ecosystem ℚ).organisms.length := by
  have h : Ecosystem.breed_next_generation ratOps ⟨[2], 5⟩ 0 rndC = some ⟨[2], 6⟩ := by
    norm_num [Ecosystem.breed_next_generation, breedChild, Ecosystem.select_suitable_organism,
      Ecosystem.fittest, fitStep, genRange, collectResults, rndC, ratOps, u32Mod, List.range_succ]
  exact ⟨h, advance_preserves_population_size ratOps ⟨[2], 5⟩ ⟨[2], 6⟩ 0 rndC h⟩

/-- Claim C3 (counterexample to the claim as stated): constructing an
`Ecosystem` from the empty organism sequence does not fail — `new` performs
no check and silently returns a population holding zero organisms. -/
theorem new_empty_population_constructs_silently :
    Ecosystem.new ([] : List ℚ) = ⟨[], 0⟩ ∧
    (Ecosystem.new ([] : List ℚ)).organisms.length = 0 :=
  ⟨rfl, rfl⟩

/-- Claim C3 (amended): `Ecosystem::new` performs no validation — it returns
`⟨orgs, 0⟩` for every input, including the empty sequence; the fatal
condition surfaces only later, when `fittest` (index panic) or
`select_suitable_organism` (explicit panic) is invoked on the empty
population. -/
theorem new_performs_no_validation {α : Type} (ops : Organism α) (orgs : List α)
    (draws : List (ℕ × ℚ)) :
    Ecosystem.new orgs = ⟨orgs, 0⟩ ∧
    Ecosystem.fittest ops (Ecosystem.new ([] : List α)) = none ∧
    Ecosystem.select_suitable_organism ops (Ecosystem.new ([] : List α)) draws = none := by
  refine ⟨rfl, rfl, ?_⟩
  induction draws with
  | nil => rfl
  | cons p rest ih =>
    obtain ⟨i, u⟩ := p
    have hget : (Ecosystem.new ([] : List α)).organisms.get? i = none := rfl
    simp only [Ecosystem.select_suitable_organism, hget]

lemma select_singleton_accepts {α : Type} (ops : Organism α) (o : α) (g : ℕ)
    (i : ℕ) (u : ℚ) (rest : List (ℕ × ℚ))
    (hi : i < 1) (hu0 : 0 ≤ u) (hu1 : u < 1) (hpos : 0 < ops.fitness o) :
    Ecosystem.select_suitable_organism ops ⟨[o], g⟩ ((i, u) :: rest) = some o := by
  obtain rfl : i = 0 := Nat.lt_one_iff.1 hi
  have hget : (⟨[o], g⟩ : Ecosystem α).organisms.get? 0 = some o := rfl
  have hf : Ecosystem.fittest ops ⟨[o], g⟩ = some o := fittest_cons ops o [] g
  have hacc : ops.fitness o > genRange 0 (ops.fitness o) u := by
    rw [genRange_zero]
    exact mul_lt_of_lt_one_left hpos hu1
  simp only [Ecosystem.select_suitable_organism, hget, hf, if_pos hacc]

lemma advance_singleton_one (g : ℕ) :
    Ecosystem.breed_next_generation ratOps ⟨[1], g⟩ 0 rndC =
      some ⟨[1], (g + 1) % u32Mod⟩ := by
  have hsel : Ecosystem.select_suitable_organism ratOps ⟨[1], g⟩ [(0, 0)] = some 1 :=
    select_singleton_accepts ratOps 1 g 0 0 [] (by norm_num) le_rfl (by norm_num)
      (by norm_num [ratOps])
  have hchild : breedChild ratOps ⟨[1], g⟩ 0 [(0, 0)] [(0, 0)] = some 1 := by
    rw [breedChild, hsel]
    norm_num [ratOps]
  rw [Ecosystem.breed_next_generation]
  simp only [show (⟨[1], g⟩ : Ecosystem ℚ).organisms.length = 1 from rfl,
    show List.range 1 = [0] from rfl, List.map_cons, List.map_nil, rndC, hchild,
    collectResults]

lemma iterAdvance_eq (k : ℕ) : iterAdvance k = ⟨[1], k % u32Mod⟩ := by
  induction k with
  | zero => rfl
  | succ k ih =>
    rw [iterAdvance, ih, advance_singleton_one, Option.getD_some]
    have : (k % u32Mod + 1) % u32Mod = (k + 1) % u32Mod := by
      simp only [u32Mod]
      omega
    rw [this]

lemma advance_empty_aux {α : Type} (ops : Organism α) (g : ℕ) (rate : ℚ)
    (rnd : ℕ → List (ℕ × ℚ) × List (ℕ × ℚ)) :
    Ecosystem.breed_next_generation ops ⟨[], g⟩ rate rnd =
      some ⟨[], (g + 1) % u32Mod⟩ := rfl

lemma iterAdvanceEmpty_eq (k : ℕ) : iterAdvanceEmpty k = ⟨[], k % u32Mod⟩ := by
  induction k with
  | zero => rfl
  | succ k ih =>
    rw [iterAdvanceEmpty, ih, advance_empty_aux, Option.getD_some]
    have : (k % u32Mod + 1) % u32Mod = (k + 1) % u32Mod := by
      simp only [u32Mod]
      omega
    rw [this]

/-- Claim C6 (amended): the generation counter starts at `0` after
construction, and a completed `breed_next_generation` call sets it to the
old value plus one modulo `2 ^ 32` — which is exactly the old value plus one
as long as no wrap-around occurs.  (`fittest` and `select_suitable_organism`
take the ecosystem read-only and return an organism, not an ecosystem, so no
other engine operation can change the counter.) -/
theorem generation_counter_semantics {α : Type} (ops : Organism α) (orgs : List α)
    (e e2 : Ecosystem α) (rate : ℚ) (rnd : ℕ → List (ℕ × ℚ) × List (ℕ × ℚ)) :
    (Ecosystem.new orgs).generation = 0 ∧
    (Ecosystem.breed_next_generation ops e rate rnd = some e2 →
      e2.generation = (e.generation + 1) % u32Mod ∧
      (e.generation + 1 < u32Mod → e2.generation = e.generation + 1)) := by
  refine ⟨rfl, ?_⟩
  intro h
  rw [Ecosystem.breed_next_generation] at h
  cases hc : collectResults ((List.range e.organisms.length).map
      (fun k => breedChild ops e rate (rnd k).1 (rnd k).2)) with
  | none => rw [hc] at h; exact absurd h (by simp)
  | some next =>
    rw [hc] at h
    obtain rfl : (⟨next, (e.generation + 1) % u32Mod⟩ : Ecosystem α) = e2 :=
      Option.some.inj h
    exact ⟨rfl, fun hlt => Nat.mod_eq_of_lt hlt⟩

/-- Witness for C6: a fresh ecosystem has counter `0`, and one completed
advance takes the counter from `5` to `6 = (5 + 1) % 2 ^ 32`. -/
theorem generation_counter_semantics_witness :
    (Ecosystem.new [(1 : ℚ)]).generation = 0 ∧
    Ecosystem.breed_next_generation ratOps ⟨[1], 5⟩ 0 rndC = some ⟨[1], 6⟩ ∧
    (⟨[1], 6⟩ : Ecosystem ℚ).generation = (5 + 1) % u32Mod := by
  have h : Ecosystem.breed_next_generation ratOps ⟨[1], 5⟩ 0 rndC = some ⟨[1], 6⟩ := by
    have := advance_singleton_one 5
    simpa [u32Mod] using this
  refine ⟨(generation_counter_semantics ratOps [1] ⟨[1], 5⟩ ⟨[1], 6⟩ 0 rndC).1, h, ?_⟩
  exact ((generation_counter_semantics ratOps [1] ⟨[1], 5⟩ ⟨[1], 6⟩ 0 rndC).2 h).1

/-- Claim C6 (counterexample to the claim as stated): the counter is a
`u32`.  Starting from `Ecosystem::new(vec![1])`, after `2 ^ 32 - 1`
completed advances the counter reads `4294967295`; the next completed
advance wraps it to `0` — the counter decreases instead of increasing by
exactly one, so the engine does bound the counter by `2 ^ 32`. -/
theorem generation_counter_wraps_after_u32_max :
    iterAdvance 0 = Ecosystem.new [1] ∧
    (iterAdvance 4294967295).generation = 4294967295 ∧
    Ecosystem.breed_next_generation ratOps (iterAdvance 4294967295) 0 rndC =
      some (iterAdvance 4294967296) ∧
    (iterAdvance 4294967296).generation = 0 := by
  refine ⟨rfl, ?_, ?_, ?_⟩
  · rw [iterAdvance_eq]
    simp [u32Mod]
  · rw [iterAdvance_eq, iterAdvance_eq, advance_singleton_one]
    norm_num [u32Mod]
  · rw [iterAdvance_eq]
    simp [u32Mod]

/-- Claim C10 (amended): `breed_next_generation` on an empty population does
not fail: the range of slots is empty, so no selection or breeding runs, the
organism sequence stays empty, and the generation counter is still set to
the old value plus one modulo `2 ^ 32`. -/
theorem advance_on_empty_population {α : Type} (ops : Organism α) (g : ℕ) (rate : ℚ)
    (rnd : ℕ → List (ℕ × ℚ) × List (ℕ × ℚ)) :
    Ecosystem.breed_next_generation ops ⟨[], g⟩ rate rnd =
      some ⟨[], (g + 1) % u32Mod⟩ :=
  advance_empty_aux ops g rate rnd

/-- Claim C10 (counterexample to the claim as stated): on the empty
population the advance does complete, but at counter value `2 ^ 32 - 1` the
`u32` increment wraps to `0` rather than incrementing by `1`. -/
theorem empty_advance_generation_wraps :
    (iterAdvanceEmpty 4294967295).generation = 4294967295 ∧
    Ecosystem.breed_next_generation ratOps (iterAdvanceEmpty 4294967295) 0 rndC =
      some (iterAdvanceEmpty 4294967296) ∧
    (iterAdvanceEmpty 4294967296).generation = 0 := by
  refine ⟨?_, ?_, ?_⟩
  · rw [iterAdvanceEmpty_eq]
    simp [u32Mod]
  · rw [iterAdvanceEmpty_eq, iterAdvanceEmpty_eq, advance_empty_aux]
    norm_num [u32Mod]
  · rw [iterAdvanceEmpty_eq]
    simp [u32Mod]

/-- Claim C7: if any organism operation invoked while producing the children
of a generation fails (panics), `breed_next_generation` fails as a whole:
no new ecosystem is produced, so the caller keeps the prior organism
sequence and the prior generation counter — the two field assignments in the
source run only after every slot's child has been produced, and rayon's
`collect` propagates the failure instead of committing a partial vector. -/
theorem advance_propagates_failure_atomically {α : Type} (ops : FallibleOrganism α)
    (e : Ecosystem α) (rate : ℚ) (rnd : ℕ → List (ℕ × ℚ) × List (ℕ × ℚ)) (k : ℕ)
    (hk : k < e.organisms.length)
    (hfail : breedChildF ops e rate (rnd k).1 (rnd k).2 = none) :
    breed_next_generationF ops e rate rnd = none := by
  rw [breed_next_generationF]
  have hmem : (none : Option α) ∈ (List.range e.organisms.length).map
      (fun j => breedChildF ops e rate (rnd j).1 (rnd j).2) := by
    rw [List.mem_map]
    exact ⟨k, List.mem_range.2 hk, hfail⟩
  rw [collectResults_none_of_mem _ hmem]

/-- Witness for C7: with an organism whose `breed` panics, slot `0` fails
and the whole generation advance fails with it. -/
theorem advance_propagates_failure_atomically_witness :
    (0 : ℕ) < (⟨[1], 0⟩ : Ecosystem ℚ).organisms.length ∧
    breedChildF failOps ⟨[1], 0⟩ 0 (rndC 0).1 (rndC 0).2 = none ∧
    breed_next_generationF failOps ⟨[1], 0⟩ 0 rndC = none := by
  have hfail : breedChildF failOps ⟨[1], 0⟩ 0 (rndC 0).1 (rndC 0).2 = none := by
    norm_num [breedChildF, select_suitable_organismF, fittestF, fitStepF, failOps,
      genRange, rndC]
  exact ⟨by norm_num, hfail,
    advance_propagates_failure_atomically failOps ⟨[1], 0⟩ 0 rndC 0 (by norm_num) hfail⟩

/-- Claim C8 (counterexample to the claim as stated): on a population of
exactly one organism whose fitness is `0`, `breed_next_generation` does not
succeed — every draw is rejected (cf. the divergence of selection on
non-positive best fitness), here shown on a stream of valid draws. -/
theorem singleton_zero_fitness_advance_stalls :
    (⟨[0], 0⟩ : Ecosystem ℚ).organisms.length = 1 ∧
    Ecosystem.breed_next_generation ratOps ⟨[0], 0⟩ 0
      (fun _ => ([(0, 0), (0, 1/2)], [(0, 0), (0, 1/2)])) = none := by
  refine ⟨rfl, ?_⟩
  norm_num [Ecosystem.breed_next_generation, breedChild, Ecosystem.select_suitable_organism,
    Ecosystem.fittest, fitStep, genRange, collectResults, ratOps, List.range_succ]

/-- Claim C8 (amended): for every population of exactly one organism whose
fitness is positive, `breed_next_generation` succeeds — each selection
accepts its very first valid draw — and the sole child is obtained by
breeding the organism with itself and then mutating it: mother and father
coincide, self-breeding is not filtered out. -/
theorem singleton_population_self_breeds {α : Type} (ops : Organism α) (o : α)
    (g : ℕ) (rate : ℚ) (rnd : ℕ → List (ℕ × ℚ) × List (ℕ × ℚ))
    (i₁ : ℕ) (u₁ : ℚ) (t₁ : List (ℕ × ℚ)) (i₂ : ℕ) (u₂ : ℚ) (t₂ : List (ℕ × ℚ))
    (hm : (rnd 0).1 = (i₁, u₁) :: t₁) (hfa : (rnd 0).2 = (i₂, u₂) :: t₂)
    (hi₁ : i₁ < 1) (hi₂ : i₂ < 1)
    (hu₁0 : 0 ≤ u₁) (hu₁1 : u₁ < 1) (hu₂0 : 0 ≤ u₂) (hu₂1 : u₂ < 1)
    (hpos : 0 < ops.fitness o) :
    Ecosystem.breed_next_generation ops ⟨[o], g⟩ rate rnd =
      some ⟨[ops.mutate (ops.breed o o) rate], (g + 1) % u32Mod⟩ := by
  have hselm : Ecosystem.select_suitable_organism ops ⟨[o], g⟩ ((rnd 0).1) = some o := by
    rw [hm]
    exact select_singleton_accepts ops o g i₁ u₁ t₁ hi₁ hu₁0 hu₁1 hpos
  have hself : Ecosystem.select_suitable_organism ops ⟨[o], g⟩ ((rnd 0).2) = some o := by
    rw [hfa]
    exact select_singleton_accepts ops o g i₂ u₂ t₂ hi₂ hu₂0 hu₂1 hpos
  have hchild : breedChild ops ⟨[o], g⟩ rate (rnd 0).1 (rnd 0).2 =
      some (ops.mutate (ops.breed o o) rate) := by
    rw [breedChild, hselm, hself]
  rw [Ecosystem.breed_next_generation]
  simp only [show (⟨[o], g⟩ : Ecosystem α).organisms.length = 1 from rfl,
    show List.range 1 = [0] from rfl, List.map_cons, List.map_nil, hchild,
    collectResults]

/-- Witness for C8's amended theorem: the singleton population `[2]` with
mutation rate `1` advances to the single child `mutate(breed(2, 2), 1)`. -/
theorem singleton_population_self_breeds_witness :
    0 < ratOps.fitness 2 ∧
    Ecosystem.breed_next_generation ratOps ⟨[2], 0⟩ 1 rndC =
      some ⟨[ratOps.mutate (ratOps.breed 2 2) 1], (0 + 1) % u32Mod⟩ :=
  ⟨by norm_num [ratOps],
   singleton_population_self_breeds ratOps 2 0 1 rndC 0 0 [] 0 0 [] rfl rfl
     (by norm_num) (by norm_num) le_rfl (by norm_num) le_rfl (by norm_num)
     (by norm_num [ratOps])⟩
